import Mathlib

/-!
Verification of the activity preprocessor pipeline
(`src/wasm/activity-service/preprocessor/preprocessor.go`) and of the
TCX schema decoders (`schema` package), as a shallow embedding in Lean.

Numeric `float64` values of the Go code are modelled as rationals (`ℚ`);
pointers to numbers (`*float64` etc.) are modelled as `Option ℚ`;
`time.Time` is modelled as a rational number of seconds, with the zero
time instant modelled as `0`.
-/

namespace Openivity

/-- Modelled from the spec: `activity.Record` is declared outside the
sources of this repository (package `activity`); its fields are taken from
the spec's data model — one timestamped sample with optional position,
kinematic and sensor fields — and from the field accesses in
`preprocessor.go`. -/
structure Record where
  timestamp : ℚ
  positionLat : Option ℚ := none
  positionLong : Option ℚ := none
  altitude : Option ℚ := none
  cadence : Option ℚ := none
  speed : Option ℚ := none
  distance : Option ℚ := none
  heartRate : Option ℚ := none
  power : Option ℚ := none
  temperature : Option ℚ := none
  grade : Option ℚ := none
  pace : Option ℚ := none
deriving DecidableEq

/-- Embeds `avg` (preprocessor.go): average of two non-nil values;
otherwise return any non-nil value if possible. -/
def avg (a b : Option ℚ) : Option ℚ :=
  match a with
  | none => b
  | some x =>
    match b with
    | some y => some ((x + y) / 2)
    | none => some x

/-- Embeds the body of the candidate loop of `AggregateByTimestamp`:
position adopts the candidate value only when absent; the seven sensor and
kinematic fields are combined with `avg`. -/
def mergeCandidate (r can : Record) : Record :=
  let r1 := if r.positionLat = none then { r with positionLat := can.positionLat } else r
  let r2 := if r1.positionLong = none then { r1 with positionLong := can.positionLong } else r1
  { r2 with
    altitude := avg r2.altitude can.altitude
    cadence := avg r2.cadence can.cadence
    speed := avg r2.speed can.speed
    distance := avg r2.distance can.distance
    heartRate := avg r2.heartRate can.heartRate
    power := avg r2.power can.power
    temperature := avg r2.temperature can.temperature }

/-- Folds a run of candidate records into the lead record, left to right,
as the inner `for j := range candidates` loop of `AggregateByTimestamp`. -/
def foldRun (r : Record) (cands : List Record) : Record :=
  cands.foldl mergeCandidate r

/-- Embeds the outer loop of `AggregateByTimestamp`, with the loop index
`i` made explicit.  The inner loop collects `candidates`, the records
directly after index `i` whose timestamp equals that of `records[i]`;
when it stops by `break` at an index `j < len(records)` it also sets
`i = j - 1`, so after `i++` the next iteration starts at `j`; when it
runs off the end of the slice no such reassignment happens and the next
iteration starts at `i + 1`.  The fuel argument is initialised to
`rs.length`, which bounds the number of iterations since every iteration
advances `i` by at least one. -/
def aggregateFrom (rs : List Record) : Nat → Nat → List Record
  | 0, _ => []
  | fuel + 1, i =>
    if h : i < rs.length then
      let r := rs.get ⟨i, h⟩
      let cands := (rs.drop (i + 1)).takeWhile fun x => decide (x.timestamp = r.timestamp)
      let nextI := if i + 1 + cands.length < rs.length then i + 1 + cands.length else i + 1
      foldRun r cands :: aggregateFrom rs fuel nextI
    else []

/-- Embeds `AggregateByTimestamp` (preprocessor.go). -/
def aggregateByTimestamp (rs : List Record) : List Record :=
  aggregateFrom rs rs.length 0

/-- Embeds the distance part of one iteration of
`CalculateDistanceAndSpeed`: returns the new value of `rec.Distance`
together with `pointDistance`.  The geodesic primitive
`geomath.VincentyDistance` lives outside this package and is passed in as
a function of the four coordinates. -/
def imputeDistance (vincenty : ℚ → ℚ → ℚ → ℚ → ℚ) (prev r : Record) : Option ℚ × ℚ :=
  match r.distance with
  | none =>
    match r.positionLat, r.positionLong, prev.positionLat, prev.positionLong with
    | some lat, some lon, some plat, some plon =>
      let prevDist := match prev.distance with | some d => d | none => 0
      let pointDistance := vincenty lat lon plat plon
      (some (prevDist + pointDistance), pointDistance)
    | _, _, _, _ => (none, 0)
  | some d =>
    match prev.distance with
    | some pd => (some d, d - pd)
    | none => (some d, 0)

/-- Embeds one iteration of `CalculateDistanceAndSpeed` on `records[i]`
(`r`) with `records[i-1]` (`prev`, already processed, since the Go loop
mutates the shared slice in place). -/
def calcDistSpeedStep (vincenty : ℚ → ℚ → ℚ → ℚ → ℚ) (prev r : Record) : Record :=
  let dp := imputeDistance vincenty prev r
  let r1 := { r with distance := dp.1 }
  if r1.speed = none ∧ dp.2 > 0 then
    let elapsed := r.timestamp - prev.timestamp
    if elapsed > 0 then { r1 with speed := some (dp.2 / elapsed) } else r1
  else r1

/-- The loop of `CalculateDistanceAndSpeed` from index 1 on: each record is
processed against the updated previous record. -/
def cdsGo (vincenty : ℚ → ℚ → ℚ → ℚ → ℚ) (prev : Record) : List Record → List Record
  | [] => []
  | r :: rest =>
    let r1 := calcDistSpeedStep vincenty prev r
    r1 :: cdsGo vincenty r1 rest

/-- Embeds `CalculateDistanceAndSpeed` (preprocessor.go): the in-place
mutation of the slice is modelled by returning the updated list; the
record at index 0 is never modified. -/
def calculateDistanceAndSpeed (vincenty : ℚ → ℚ → ℚ → ℚ → ℚ) : List Record → List Record
  | [] => []
  | r0 :: rest => r0 :: cdsGo vincenty r0 rest

/-- Embeds the backward scan of `SmoothingElev` for the record at index
`j₀` (called with `j₀ = i`): `rDist` is the current record's distance;
the scan walks `j` downward, skips records missing distance or altitude,
stops at the first record whose distance gap exceeds `window` (excluding
it and everything before it), and accumulates `(sum, counter)` over the
included records. -/
def smoothScan (window : ℚ) (rs : List Record) (rDist : ℚ) : Nat → ℚ × ℚ
  | 0 =>
    match rs[0]? with
    | some p =>
      match p.distance, p.altitude with
      | some pd, some pa => if rDist - pd > window then (0, 0) else (pa, 1)
      | _, _ => (0, 0)
    | none => (0, 0)
  | j + 1 =>
    match rs[j + 1]? with
    | some p =>
      match p.distance, p.altitude with
      | some pd, some pa =>
        if rDist - pd > window then (0, 0)
        else
          let sc := smoothScan window rs rDist j
          (sc.1 + pa, sc.2 + 1)
      | _, _ => smoothScan window rs rDist j
    | none => (0, 0)

/-- Embeds the outer loop of `SmoothingElev`: indices are processed left
to right over the live, already partially smoothed list (the Go code
mutates `records` in place while scanning it).  The fuel argument is
initialised to `rs.length`, which is exactly the number of iterations. -/
def smoothingElevAux (window : ℚ) : Nat → List Record → Nat → List Record
  | 0, rs, _ => rs
  | fuel + 1, rs, i =>
    if h : i < rs.length then
      let r := rs.get ⟨i, h⟩
      let r1 :=
        match r.distance, r.altitude with
        | some rd, some _ =>
          let sc := smoothScan window rs rd i
          { r with altitude := some (sc.1 / sc.2) }
        | _, _ => r
      smoothingElevAux window fuel (rs.set i r1) (i + 1)
    else rs

/-- Embeds `SmoothingElev` (preprocessor.go). -/
def smoothingElev (window : ℚ) (rs : List Record) : List Record :=
  smoothingElevAux window rs.length rs 0

/-- Modelled from the spec: the alternative "smooth from original
readings" semantics for the elevation smoother (spec §4.3 and §9), in
which every backward window is averaged over a snapshot of the input
altitudes instead of the live mutated sequence.  Declared only to be
compared with `smoothingElev`, the embedding of the code. -/
def smoothingElevSnapshot (window : ℚ) (rs : List Record) : List Record :=
  rs.enum.map fun p =>
    match p.2.distance, p.2.altitude with
    | some rd, some _ =>
      let sc := smoothScan window rs rd p.1
      { p.2 with altitude := some (sc.1 / sc.2) }
    | _, _ => p.2

/-- Embeds the forward scan of `CalculateGrade` for one record: `rDist`
and `rAlt` are the current record's distance and altitude, the list is
the suffix of records after it.  Records missing distance or altitude are
skipped; the scan stops at the first candidate whose gap exceeds
`window`, discarding its values; every in-window candidate overwrites the
accumulator `(rise, run)`. -/
def gradeScan (window rDist rAlt : ℚ) : List Record → ℚ × ℚ → ℚ × ℚ
  | [], acc => acc
  | p :: rest, acc =>
    match p.distance, p.altitude with
    | some pd, some pa =>
      let d := pd - rDist
      if d > window then acc
      else gradeScan window rDist rAlt rest (pa - rAlt, d)
    | _, _ => gradeScan window rDist rAlt rest acc

/-- Embeds `CalculateGrade` (preprocessor.go).  The stage only writes the
`Grade` field, which no scan reads, so it is modelled as a map over the
indexed input list. -/
def calculateGrade (window : ℚ) (rs : List Record) : List Record :=
  rs.enum.map fun p =>
    match p.2.distance, p.2.altitude with
    | some rd, some ra =>
      let rr := gradeScan window rd ra (rs.drop (p.1 + 1)) (0, 0)
      if rr.1 = 0 ∨ rr.2 = 0 then p.2 else { p.2 with grade := some (rr.1 / rr.2 * 100) }
    | _, _ => p.2

/-- Embeds `CalculatePace` (preprocessor.go).  The external predicate
`activity.IsConsideredMoving` is passed in as an opaque boolean function
of the sport and the record's speed, as the spec prescribes.  The stage
only writes the `Pace` field, which it never reads, so it is modelled as
a map over the indexed input list; the record at index 0 is skipped.
The Go literal `3.6` (km/h per m/s) is the rational `18/5`. -/
def calculatePace (isMoving : String → Option ℚ → Bool) (sport : String) (rs : List Record) : List Record :=
  rs.enum.map fun p =>
    if p.1 = 0 then p.2 else
    match rs[p.1 - 1]? with
    | none => p.2
    | some prev =>
      match p.2.distance, prev.distance with
      | some rd, some pd =>
        if p.2.timestamp = 0 ∨ prev.timestamp = 0 then p.2
        else if isMoving sport p.2.speed = false then p.2
        else
          match p.2.speed with
          | none =>
            let pointDistance := rd - pd
            let elapsed := p.2.timestamp - prev.timestamp
            let pointDistanceInKM := pointDistance / 1000
            if pointDistanceInKM = 0 then p.2
            else { p.2 with pace := some (elapsed / pointDistanceInKM) }
          | some s =>
            let speedkph := s * (18 / 5)
            { p.2 with pace := some (1 / speedkph * 60 * 60) }
      | _, _ => p.2

/-- Embeds the `options` struct of the preprocessor. -/
structure Options where
  smoothingElevDistance : ℚ
  calculateGradeDistance : ℚ
deriving DecidableEq

/-- Embeds `defaultOptions` (preprocessor.go). -/
def defaultOptions : Options :=
  { smoothingElevDistance := 30, calculateGradeDistance := 100 }

/-- The two functional options of the preprocessor package. -/
inductive PreOption where
  | withSmoothingElevationDistance (d : ℚ)
  | withCalculateDistance (d : ℚ)

/-- Embeds `WithSmoothingElevationDistance` and `WithCalculateDistance`:
a non-positive value is ignored, leaving the default in place. -/
def applyOption (o : Options) : PreOption → Options
  | .withSmoothingElevationDistance d =>
    if d > 0 then { o with smoothingElevDistance := d } else o
  | .withCalculateDistance d =>
    if d > 0 then { o with calculateGradeDistance := d } else o

/-- Embeds `New` (preprocessor.go): apply every option to the defaults. -/
def new (opts : List PreOption) : Options :=
  opts.foldl applyOption defaultOptions

/-- The XML tokens consumed by the schema decoders, as delivered by
`xml.Decoder.Token`: start elements, character data and end elements
(identified by their local name). -/
inductive XmlToken where
  | start (name : String)
  | charData (s : String)
  | endElem (name : String)
deriving DecidableEq

/-- A decoding failure: either the token stream ends before the matching
end element (`dec.Token` returns an error) or a numeric character-data
value fails to parse. -/
inductive DecodeError where
  | eof
  | parseFail (s : String)
deriving DecidableEq

/-- The base-10 value of a digit string. -/
def digitsVal (s : String) : Nat :=
  s.data.foldl (fun acc c => acc * 10 + (c.toNat - 48)) 0

/-- Embeds `strconv.ParseUint(s, 10, bitSize)`: `none` models a non-nil
error, raised on a syntax error (empty string or a non-digit character)
or when the value exceeds the target integer width. -/
def parseUint (s : String) (bitSize : Nat) : Option Nat :=
  if s.data ≠ [] ∧ s.data.all Char.isDigit then
    if digitsVal s < 2 ^ bitSize then some (digitsVal s) else none
  else none

/-- Embeds the `Version` schema struct (four `uint16` fields, zero value
when decoding starts). -/
structure Version where
  versionMajor : Nat := 0
  versionMinor : Nat := 0
  buildMajor : Nat := 0
  buildMinor : Nat := 0
deriving DecidableEq

/-- Embeds `Version.UnmarshalXML`: `seName` is the local name of the
start element being decoded, `target` the pending `targetCharData`.  On
success it returns the decoded value and the unconsumed tokens; a parse
failure aborts immediately with the error. -/
def versionLoop (v : Version) (seName target : String) : List XmlToken → Except DecodeError (Version × List XmlToken)
  | [] => .error .eof
  | .start name :: rest => versionLoop v seName name rest
  | .charData s :: rest =>
    match target with
    | "VersionMajor" =>
      match parseUint s 16 with
      | none => .error (.parseFail s)
      | some u => versionLoop { v with versionMajor := u } seName "" rest
    | "VersionMinor" =>
      match parseUint s 16 with
      | none => .error (.parseFail s)
      | some u => versionLoop { v with versionMinor := u } seName "" rest
    | "BuildMajor" =>
      match parseUint s 16 with
      | none => .error (.parseFail s)
      | some u => versionLoop { v with buildMajor := u } seName "" rest
    | "BuildMinor" =>
      match parseUint s 16 with
      | none => .error (.parseFail s)
      | some u => versionLoop { v with buildMinor := u } seName "" rest
    | _ => versionLoop v seName "" rest
  | .endElem name :: rest =>
    if name = seName then .ok (v, rest) else versionLoop v seName target rest

/-- A successful `versionLoop` leaves at most as many tokens as it was
given. -/
theorem versionLoop_length_le (ts : List XmlToken) :
    ∀ v seName target v1 rest, versionLoop v seName target ts = .ok (v1, rest) →
      rest.length ≤ ts.length := by
  induction ts with
  | nil => intro v sn tg v1 r h; simp [versionLoop] at h
  | cons t rest ih =>
    intro v sn tg v1 r h
    cases t with
    | start name =>
      rw [versionLoop.eq_def] at h
      simp only [] at h
      exact Nat.le_succ_of_le (ih _ _ _ _ _ h)
    | charData s =>
      rw [versionLoop.eq_def] at h
      simp only [] at h
      split at h
      all_goals try split at h
      all_goals first
        | exact Nat.le_succ_of_le (ih _ _ _ _ _ h)
        | simp at h
    | endElem name =>
      rw [versionLoop.eq_def] at h
      simp only [] at h
      split at h
      · rw [Except.ok.injEq, Prod.mk.injEq] at h
        obtain ⟨-, rfl⟩ := h
        exact Nat.le_succ _
      · exact Nat.le_succ_of_le (ih _ _ _ _ _ h)

/-- Embeds the `Device` schema struct (`Name string`, `UnitId uint32`,
`ProductID uint16`, optional nested `Version`). -/
structure Device where
  name : String := ""
  unitId : Nat := 0
  productID : Nat := 0
  version : Option Version := none
deriving DecidableEq

/-- Embeds `Device.UnmarshalXML`: a `Version` start element is decoded by
`versionLoop` into a fresh zero `Version`, attached only on success; any
error from the nested decode or from `strconv.ParseUint` aborts at once
and is returned to the caller. -/
def deviceLoop (d : Device) (seName target : String) : List XmlToken → Except DecodeError (Device × List XmlToken)
  | [] => .error .eof
  | .start name :: rest =>
    if name = "Version" then
      match hv : versionLoop {} name "" rest with
      | .error e => .error e
      | .ok (ver, rest1) => deviceLoop { d with version := some ver } seName target rest1
    else deviceLoop d seName name rest
  | .charData s :: rest =>
    match target with
    | "Name" => deviceLoop { d with name := s } seName "" rest
    | "UnitId" =>
      match parseUint s 32 with
      | none => .error (.parseFail s)
      | some u => deviceLoop { d with unitId := u } seName "" rest
    | "ProductID" =>
      match parseUint s 16 with
      | none => .error (.parseFail s)
      | some u => deviceLoop { d with productID := u } seName "" rest
    | _ => deviceLoop d seName "" rest
  | .endElem name :: rest =>
    if name = seName then .ok (d, rest) else deviceLoop d seName target rest
termination_by ts => ts.length
decreasing_by
  all_goals simp_wf
  all_goals try omega
  have hle := versionLoop_length_le rest _ _ _ _ _ hv
  omega

/-- Index access through `List.enum.map`, the shape shared by the grade
and pace stage embeddings. -/
theorem enumMap_getElem {α β : Type} (f : Nat × α → β) (l : List α) (i : Nat) :
    (l.enum.map f)[i]? = (l[i]?).map fun a => f (i, a) := by
  rw [List.getElem?_map, List.getElem?_enum]
  cases l[i]? <;> rfl

/-- When consecutive timestamps all differ, every iteration of the
aggregation loop collects no candidates and copies one record. -/
theorem aggregateFrom_of_distinct (rs : List Record)
    (hadj : ∀ i, ∀ r1 r2 : Record, rs[i]? = some r1 → rs[i + 1]? = some r2 →
      r1.timestamp ≠ r2.timestamp) :
    ∀ fuel i, rs.length - i ≤ fuel → aggregateFrom rs fuel i = rs.drop i := by
  intro fuel
  induction fuel with
  | zero =>
    intro i hle
    rw [aggregateFrom, List.drop_eq_nil_of_le (by omega)]
  | succ fuel ih =>
    intro i hle
    rw [aggregateFrom]
    by_cases h : i < rs.length
    · rw [dif_pos h]
      have hcand : (rs.drop (i + 1)).takeWhile
          (fun x => decide (x.timestamp = (rs.get ⟨i, h⟩).timestamp)) = [] := by
        cases hlt : rs.drop (i + 1) with
        | nil => simp
        | cons y ys =>
          have hy : rs[i + 1]? = some y := by
            have := List.getElem?_drop rs (i + 1) 0
            rw [hlt] at this
            simpa using this.symm
          have hne := hadj i (rs.get ⟨i, h⟩) y (by simp) hy
          rw [List.takeWhile_cons]
          simp only [List.get_eq_getElem] at hne
          simp
          exact fun heq => hne (Eq.symm heq)
      simp only [hcand, foldRun, List.foldl_nil, List.length_nil, Nat.add_zero, ite_self]
      rw [ih (i + 1) (by omega)]
      exact (List.drop_eq_getElem_cons h).symm
    · rw [dif_neg h, List.drop_eq_nil_of_le (by omega)]

/-- Claim C8: for every input sequence whose timestamps are pairwise
distinct, `AggregateByTimestamp` returns its input unchanged: same
records, same order, same length, no field mutated. -/
theorem c8_distinct_timestamps_identity (rs : List Record)
    (h : rs.Pairwise fun a b => a.timestamp ≠ b.timestamp) :
    aggregateByTimestamp rs = rs := by
  have hadj : ∀ i, ∀ r1 r2 : Record, rs[i]? = some r1 → rs[i + 1]? = some r2 →
      r1.timestamp ≠ r2.timestamp := by
    intro i r1 r2 h1 h2
    have hi1 : i + 1 < rs.length := by
      by_contra hge
      rw [List.getElem?_eq_none (by omega)] at h2
      exact Option.noConfusion h2
    have hp := List.pairwise_iff_getElem.mp h i (i + 1)
      (Nat.lt_of_succ_lt hi1) hi1 (Nat.lt_succ_self i)
    rw [List.getElem?_eq_getElem (Nat.lt_of_succ_lt hi1)] at h1
    rw [List.getElem?_eq_getElem hi1] at h2
    rw [← Option.some_inj.mp h1, ← Option.some_inj.mp h2]
    exact hp
  have := aggregateFrom_of_distinct rs hadj rs.length 0 (by omega)
  simpa [aggregateByTimestamp] using this

/-- Witness for C8 at a concrete two-record input with distinct
timestamps. -/
theorem c8_witness :
    aggregateByTimestamp
        [{ timestamp := 1, altitude := some 7 }, { timestamp := 2 }] =
      [{ timestamp := 1, altitude := some 7 }, { timestamp := 2 }] :=
  c8_distinct_timestamps_identity _ (by decide)

/-- Three records sharing timestamp 1 — the run fills the whole input
sequence. -/
def recT1 : Record := { timestamp := 1, altitude := some 100 }

/-- Second record of the trailing run. -/
def recT2 : Record := { timestamp := 1, altitude := some 102 }

/-- Third record of the trailing run. -/
def recT3 : Record := { timestamp := 1, altitude := some 104 }

/-- Claim C1 (code bug): a run of equal timestamps that extends to the end
of the input is NOT collapsed to a single record.  The inner loop only
executes `i = j - 1` when it stops at a differing timestamp; when it runs
off the end of the slice, the outer index advances by one and the tail
records of the run are emitted again.  Three records all bearing
timestamp 1 aggregate to three records (with altitudes 102.5, 103 and
104), not to one. -/
theorem c1_trailing_run_not_collapsed :
    aggregateByTimestamp [recT1, recT2, recT3] =
      [{ recT1 with altitude := some (205 / 2) },
       { recT2 with altitude := some 103 }, recT3] ∧
    (aggregateByTimestamp [recT1, recT2, recT3]).length ≠ 1 := by
  refine ⟨?_, by decide⟩
  norm_num [aggregateByTimestamp, aggregateFrom, foldRun, mergeCandidate, avg,
    recT1, recT2, recT3]

/-- Lead record of a duplicate-timestamp run whose `Grade` is absent. -/
def runLead : Record := { timestamp := 1 }

/-- Candidate record of the same run carrying a present `Grade`. -/
def runNext : Record := { timestamp := 1, grade := some 5 }

/-- A record with a fresh timestamp closing the run. -/
def afterRun : Record := { timestamp := 2 }

/-- Claim C6 counterexample: `Grade` is a field other than position, yet
`AggregateByTimestamp` does not fold it with the averaging reducer: the
collapsed representative keeps the lead record's absent `Grade` even
though the reducer applied to the run's `Grade` values yields `some 5`. -/
theorem c6_grade_not_folded :
    aggregateByTimestamp [runLead, runNext, afterRun] = [runLead, afterRun] ∧
    avg runLead.grade runNext.grade = some 5 ∧
    runLead.grade = none := by
  refine ⟨by decide, by decide, by decide⟩

/-- The seven `avg`-combined fields of `mergeCandidate`, and the fields it
leaves untouched. -/
theorem mergeCandidate_fields (r c : Record) :
    (mergeCandidate r c).altitude = avg r.altitude c.altitude ∧
    (mergeCandidate r c).cadence = avg r.cadence c.cadence ∧
    (mergeCandidate r c).speed = avg r.speed c.speed ∧
    (mergeCandidate r c).distance = avg r.distance c.distance ∧
    (mergeCandidate r c).heartRate = avg r.heartRate c.heartRate ∧
    (mergeCandidate r c).power = avg r.power c.power ∧
    (mergeCandidate r c).temperature = avg r.temperature c.temperature ∧
    (mergeCandidate r c).grade = r.grade ∧
    (mergeCandidate r c).pace = r.pace ∧
    (mergeCandidate r c).timestamp = r.timestamp := by
  simp only [mergeCandidate]
  split_ifs <;> simp

/-- First record of a run with altitude 10. -/
def altA : Record := { timestamp := 1, altitude := some 10 }

/-- Second record of the run, altitude 20. -/
def altB : Record := { timestamp := 1, altitude := some 20 }

/-- Third record of the run, altitude 30. -/
def altC : Record := { timestamp := 1, altitude := some 30 }

/-- A record with a fresh timestamp closing the altitude run. -/
def altStop : Record := { timestamp := 2, altitude := some 5 }

/-- Claim C6 as amended: when `AggregateByTimestamp` collapses a run, the
seven sensor and kinematic fields Altitude, Cadence, Speed, Distance,
HeartRate, Power and Temperature — but not Grade or Pace, which keep the
lead record's values — are folded pairwise left to right by the averaging
reducer (absent side: take the other; both present: arithmetic mean); in
particular altitudes 10, 20, 30 collapse to avg(avg(10,20),30) = 22.5,
not 20. -/
theorem c6_amended_sensor_fields_folded :
    (∀ (r : Record) (cands : List Record),
      (foldRun r cands).altitude = cands.foldl (fun a c => avg a c.altitude) r.altitude ∧
      (foldRun r cands).cadence = cands.foldl (fun a c => avg a c.cadence) r.cadence ∧
      (foldRun r cands).speed = cands.foldl (fun a c => avg a c.speed) r.speed ∧
      (foldRun r cands).distance = cands.foldl (fun a c => avg a c.distance) r.distance ∧
      (foldRun r cands).heartRate = cands.foldl (fun a c => avg a c.heartRate) r.heartRate ∧
      (foldRun r cands).power = cands.foldl (fun a c => avg a c.power) r.power ∧
      (foldRun r cands).temperature = cands.foldl (fun a c => avg a c.temperature) r.temperature ∧
      (foldRun r cands).grade = r.grade ∧
      (foldRun r cands).pace = r.pace) ∧
    ((aggregateByTimestamp [altA, altB, altC, altStop]).map fun r => r.altitude) =
      [some (45 / 2), some 5] ∧
    avg (avg (some 10) (some 20)) (some 30) = some (45 / 2) ∧
    (45 : ℚ) / 2 ≠ 20 := by
  refine ⟨?_,
    by norm_num [aggregateByTimestamp, aggregateFrom, foldRun, mergeCandidate, avg,
      altA, altB, altC, altStop],
    by norm_num [avg], by norm_num⟩
  intro r cands
  induction cands generalizing r with
  | nil => simp [foldRun]
  | cons c cs ih =>
    have hm := mergeCandidate_fields r c
    have hi := ih (mergeCandidate r c)
    simp only [foldRun, List.foldl_cons] at hi ⊢
    obtain ⟨m1, m2, m3, m4, m5, m6, m7, m8, m9, -⟩ := hm
    obtain ⟨i1, i2, i3, i4, i5, i6, i7, i8, i9⟩ := hi
    rw [m1] at i1
    rw [m2] at i2
    rw [m3] at i3
    rw [m4] at i4
    rw [m5] at i5
    rw [m6] at i6
    rw [m7] at i7
    rw [m8] at i8
    rw [m9] at i9
    exact ⟨i1, i2, i3, i4, i5, i6, i7, i8, i9⟩

/-- Successor-index characterisation of the distance/speed loop body. -/
theorem cdsGo_getElem_succ (vincenty : ℚ → ℚ → ℚ → ℚ → ℚ) :
    ∀ (l : List Record) (prev : Record) (j : Nat) (p q : Record),
      (cdsGo vincenty prev l)[j]? = some p → l[j + 1]? = some q →
      (cdsGo vincenty prev l)[j + 1]? = some (calcDistSpeedStep vincenty p q) := by
  intro l
  induction l with
  | nil => intro prev j p q hp _; simp [cdsGo] at hp
  | cons r rest ih =>
    intro prev j p q hp hq
    match j with
    | 0 =>
      simp only [cdsGo, List.getElem?_cons_zero, List.getElem?_cons_succ,
        Option.some_inj] at hp hq ⊢
      cases rest with
      | nil => simp at hq
      | cons x xs =>
        simp only [List.getElem?_cons_zero, Option.some_inj] at hq
        simp [cdsGo, hp, hq]
    | j + 1 =>
      simp only [cdsGo, List.getElem?_cons_succ] at hp hq ⊢
      exact ih _ j p q hp hq

/-- The record after index `i` in the output of
`CalculateDistanceAndSpeed` is one loop step applied to the (already
updated) record at index `i` and the original record at index `i + 1`. -/
theorem cds_getElem_succ (vincenty : ℚ → ℚ → ℚ → ℚ → ℚ) (rs : List Record) (i : Nat)
    (p q : Record)
    (hp : (calculateDistanceAndSpeed vincenty rs)[i]? = some p)
    (hq : rs[i + 1]? = some q) :
    (calculateDistanceAndSpeed vincenty rs)[i + 1]? =
      some (calcDistSpeedStep vincenty p q) := by
  cases rs with
  | nil => simp [calculateDistanceAndSpeed] at hp
  | cons r0 rest =>
    simp only [calculateDistanceAndSpeed] at hp ⊢
    match i with
    | 0 =>
      simp only [List.getElem?_cons_zero, List.getElem?_cons_succ, Option.some_inj] at hp hq
      cases rest with
      | nil => simp at hq
      | cons x xs =>
        simp only [List.getElem?_cons_zero, Option.some_inj] at hq
        simp [cdsGo, hp, hq]
    | i + 1 =>
      simp only [List.getElem?_cons_succ] at hp hq ⊢
      exact cdsGo_getElem_succ vincenty rest r0 i p q hp hq

/-- The loop step never changes the distance decided by
`imputeDistance`. -/
theorem calcDistSpeedStep_distance (vincenty : ℚ → ℚ → ℚ → ℚ → ℚ) (prev r : Record) :
    (calcDistSpeedStep vincenty prev r).distance =
      (imputeDistance vincenty prev r).1 := by
  simp only [calcDistSpeedStep]
  split_ifs <;> rfl

/-- The speed written by the loop step: the quotient is stored exactly
when the speed was absent, the point distance positive and the elapsed
time positive; otherwise the speed field is untouched. -/
theorem calcDistSpeedStep_speed (vincenty : ℚ → ℚ → ℚ → ℚ → ℚ) (prev r : Record) :
    (calcDistSpeedStep vincenty prev r).speed =
      if r.speed = none ∧ 0 < (imputeDistance vincenty prev r).2 ∧
          0 < r.timestamp - prev.timestamp
      then some ((imputeDistance vincenty prev r).2 / (r.timestamp - prev.timestamp))
      else r.speed := by
  simp only [calcDistSpeedStep]
  split_ifs with h1 h2 h3 <;> first
    | rfl
    | (exfalso; rcases h1 with ⟨ha, hb⟩; rcases h3 with ⟨-, -, hc⟩; exact absurd hc (not_lt.mpr (le_of_not_lt h2)))
    | (exfalso; exact h3 ⟨h1.1, h1.2, h2⟩)
    | (exfalso; exact h1 ⟨h2.1, h2.2.1, h2.2.2⟩)
    | simp_all

/-- Claim C3: for every index `i + 1`, `CalculateDistanceAndSpeed` sets
`Distance[i+1]` to `Distance[i]` (or 0 when that is absent) plus the
geodesic distance of the two coordinate pairs exactly when
`Distance[i+1]` is absent and both records carry latitude and longitude;
a present `Distance[i+1]` is left untouched. -/
theorem c3_distance_imputation (vincenty : ℚ → ℚ → ℚ → ℚ → ℚ) (rs : List Record) (i : Nat)
    (prev r : Record)
    (hp : (calculateDistanceAndSpeed vincenty rs)[i]? = some prev)
    (hr : rs[i + 1]? = some r) :
    (∀ d, r.distance = some d →
      ∃ r1, (calculateDistanceAndSpeed vincenty rs)[i + 1]? = some r1 ∧
        r1.distance = some d) ∧
    (∀ lat lon plat plon, r.distance = none →
      r.positionLat = some lat → r.positionLong = some lon →
      prev.positionLat = some plat → prev.positionLong = some plon →
      ∃ r1, (calculateDistanceAndSpeed vincenty rs)[i + 1]? = some r1 ∧
        r1.distance = some ((match prev.distance with | some d0 => d0 | none => 0) +
          vincenty lat lon plat plon)) ∧
    (r.distance = none →
      (r.positionLat = none ∨ r.positionLong = none ∨
        prev.positionLat = none ∨ prev.positionLong = none) →
      ∃ r1, (calculateDistanceAndSpeed vincenty rs)[i + 1]? = some r1 ∧
        r1.distance = none) := by
  have hstep := cds_getElem_succ vincenty rs i prev r hp hr
  refine ⟨?_, ?_, ?_⟩
  · intro d hd
    refine ⟨_, hstep, ?_⟩
    rw [calcDistSpeedStep_distance]
    cases hpd : prev.distance <;> simp [imputeDistance, hd, hpd]
  · intro lat lon plat plon hd h1 h2 h3 h4
    refine ⟨_, hstep, ?_⟩
    rw [calcDistSpeedStep_distance]
    cases hpd : prev.distance <;> simp [imputeDistance, hd, h1, h2, h3, h4, hpd]
  · intro hd hpos
    refine ⟨_, hstep, ?_⟩
    rw [calcDistSpeedStep_distance]
    cases h1 : r.positionLat with
    | none => simp [imputeDistance, hd, h1]
    | some lat =>
      cases h2 : r.positionLong with
      | none => simp [imputeDistance, hd, h1, h2]
      | some lon =>
        cases h3 : prev.positionLat with
        | none => simp [imputeDistance, hd, h1, h2, h3]
        | some plat =>
          cases h4 : prev.positionLong with
          | none => simp [imputeDistance, hd, h1, h2, h3, h4]
          | some plon => simp_all

/-- Claim C5: `Speed[i+1]` is set to pointDistance / elapsedSeconds
exactly when the speed is absent, the point distance positive and the
elapsed time positive; with non-positive elapsed time or point distance,
or a present speed, no assignment happens (and the total embedding raises
no error). -/
theorem c5_speed_assignment (vincenty : ℚ → ℚ → ℚ → ℚ → ℚ) (rs : List Record) (i : Nat)
    (prev r : Record)
    (hp : (calculateDistanceAndSpeed vincenty rs)[i]? = some prev)
    (hr : rs[i + 1]? = some r) :
    (r.speed = none → 0 < (imputeDistance vincenty prev r).2 →
      0 < r.timestamp - prev.timestamp →
      ∃ r1, (calculateDistanceAndSpeed vincenty rs)[i + 1]? = some r1 ∧
        r1.speed = some ((imputeDistance vincenty prev r).2 /
          (r.timestamp - prev.timestamp))) ∧
    (r.timestamp - prev.timestamp ≤ 0 →
      ∃ r1, (calculateDistanceAndSpeed vincenty rs)[i + 1]? = some r1 ∧
        r1.speed = r.speed) ∧
    ((imputeDistance vincenty prev r).2 ≤ 0 →
      ∃ r1, (calculateDistanceAndSpeed vincenty rs)[i + 1]? = some r1 ∧
        r1.speed = r.speed) ∧
    (∀ s, r.speed = some s →
      ∃ r1, (calculateDistanceAndSpeed vincenty rs)[i + 1]? = some r1 ∧
        r1.speed = some s) := by
  have hstep := cds_getElem_succ vincenty rs i prev r hp hr
  refine ⟨?_, ?_, ?_, ?_⟩
  · intro h1 h2 h3
    refine ⟨_, hstep, ?_⟩
    rw [calcDistSpeedStep_speed, if_pos ⟨h1, h2, h3⟩]
  · intro hts
    refine ⟨_, hstep, ?_⟩
    rw [calcDistSpeedStep_speed, if_neg]
    rintro ⟨-, -, h3⟩
    exact absurd h3 (not_lt.mpr hts)
  · intro hpd
    refine ⟨_, hstep, ?_⟩
    rw [calcDistSpeedStep_speed, if_neg]
    rintro ⟨-, h2, -⟩
    exact absurd h2 (not_lt.mpr hpd)
  · intro s hs
    refine ⟨_, hstep, ?_⟩
    rw [calcDistSpeedStep_speed, if_neg, hs]
    rintro ⟨h1, -, -⟩
    rw [hs] at h1
    exact Option.noConfusion h1

/-- A geodesic stub returning the constant 7 for the C3 witness. -/
def vincentySeven : ℚ → ℚ → ℚ → ℚ → ℚ := fun _ _ _ _ => 7

/-- Predecessor record of the C3 witness: distance 5, coordinates
present. -/
def cw0 : Record :=
  { timestamp := 0, positionLat := some 1, positionLong := some 1, distance := some 5 }

/-- Current record of the C3 witness: distance absent, coordinates
present. -/
def cw1 : Record :=
  { timestamp := 1, positionLat := some 2, positionLong := some 2 }

/-- Witness for C3: the absent distance of the second record is imputed
as 5 + 7. -/
theorem c3_witness :
    ∃ r1, (calculateDistanceAndSpeed vincentySeven [cw0, cw1])[1]? = some r1 ∧
      r1.distance = some (5 + 7) := by
  have h := (c3_distance_imputation vincentySeven [cw0, cw1] 0 cw0 cw1
    (by decide) (by decide)).2.1 2 2 1 1 rfl rfl rfl rfl rfl
  simpa [cw0, vincentySeven] using h

/-- A geodesic stub returning 0, unused by the C5 witness path. -/
def vincentyZero : ℚ → ℚ → ℚ → ℚ → ℚ := fun _ _ _ _ => 0

/-- Predecessor record of the C5 witness. -/
def sw0 : Record := { timestamp := 0, distance := some 0 }

/-- Current record of the C5 witness: distance present, speed absent. -/
def sw1 : Record := { timestamp := 1, distance := some 3 }

/-- Witness for C5: speed 3 / 1 is written for a positive distance delta
over one second. -/
theorem c5_witness :
    ∃ r1, (calculateDistanceAndSpeed vincentyZero [sw0, sw1])[1]? = some r1 ∧
      r1.speed = some ((imputeDistance vincentyZero sw0 sw1).2 /
        (sw1.timestamp - sw0.timestamp)) :=
  (c5_speed_assignment vincentyZero [sw0, sw1] 0 sw0 sw1 (by decide) (by decide)).1
    rfl (by norm_num [imputeDistance, sw0, sw1]) (by norm_num [sw0, sw1])

/-- A moving predicate that always answers `true`, standing in for the
opaque `activity.IsConsideredMoving`. -/
def alwaysMoving : String → Option ℚ → Bool := fun _ _ => true

/-- Predecessor record for the pace example. -/
def pw0 : Record := { timestamp := 100, distance := some 0 }

/-- Current record for the pace example: speed 10 m/s present. -/
def pw1 : Record := { timestamp := 101, distance := some 10, speed := some 10 }

/-- Claim C2 counterexample: with `Speed = 10` m/s present (and every
precondition of `CalculatePace` satisfied) the code stores pace
(1/(10·3.6))·3600 = 100 seconds per kilometre — not 360 as the claim
states. -/
theorem c2_pace_100_not_360 :
    calculatePace alwaysMoving "running" [pw0, pw1] =
      [pw0, { pw1 with pace := some 100 }] ∧
    (100 : ℚ) ≠ 360 := by
  constructor
  · norm_num [calculatePace, List.enum, List.enumFrom, alwaysMoving, pw0, pw1]
  · norm_num

/-- Claim C2 as amended: under the claim's preconditions and with
`Speed = 10` m/s present, `CalculatePace` sets `Pace` to exactly
3600 / (10 · 3.6) = 100 seconds per kilometre. -/
theorem c2_amended_pace_from_speed (isMoving : String → Option ℚ → Bool) (sport : String)
    (rs : List Record) (i : Nat) (r prev : Record)
    (hi : i ≠ 0) (hr : rs[i]? = some r) (hprev : rs[i - 1]? = some prev)
    (hd : ∃ d, r.distance = some d) (hpd : ∃ d, prev.distance = some d)
    (ht : r.timestamp ≠ 0) (hpt : prev.timestamp ≠ 0)
    (hmov : isMoving sport r.speed = true)
    (hs : r.speed = some 10) :
    (calculatePace isMoving sport rs)[i]? = some { r with pace := some 100 } ∧
    1 / ((10 : ℚ) * (18 / 5)) * 60 * 60 = 100 := by
  refine ⟨?_, by norm_num⟩
  obtain ⟨d, hd⟩ := hd
  obtain ⟨pd, hpd⟩ := hpd
  rw [calculatePace, enumMap_getElem, hr]
  simp only [Option.map_some', hi, if_false, hprev]
  rw [hd, hpd]
  simp only [hs]
  rw [if_neg (by simp [ht, hpt])]
  rw [hs] at hmov
  rw [hmov]
  norm_num [Record.mk.injEq]

/-- Witness for C2 as amended, at the concrete two-record input. -/
theorem c2_witness :
    (calculatePace alwaysMoving "running" [pw0, pw1])[1]? =
      some { pw1 with pace := some 100 } :=
  (c2_amended_pace_from_speed alwaysMoving "running" [pw0, pw1] 1 pw1 pw0
    (by decide) (by decide) (by decide) ⟨10, rfl⟩ ⟨0, rfl⟩
    (by norm_num [pw1]) (by norm_num [pw0]) rfl rfl).1

/-- Stated after the spec's words, for comparison with `gradeScan`: the
forward candidates with both fields present, taken while the distance gap
stays within the window (the scan stops at the first candidate whose gap
exceeds it). -/
def inWindowCandidates (window rDist : ℚ) (rest : List Record) : List Record :=
  (rest.filter fun p => p.distance.isSome && p.altitude.isSome).takeWhile
    fun p => decide (p.distance.getD 0 - rDist ≤ window)

/-- The grade scan returns the rise/run of the last in-window candidate,
or its accumulator when there is none. -/
theorem gradeScan_eq_last (window rDist rAlt : ℚ) :
    ∀ (rest : List Record) (acc : ℚ × ℚ),
      gradeScan window rDist rAlt rest acc =
        match (inWindowCandidates window rDist rest).getLast? with
        | none => acc
        | some p => (p.altitude.getD 0 - rAlt, p.distance.getD 0 - rDist) := by
  intro rest
  induction rest with
  | nil => intro acc; simp [gradeScan, inWindowCandidates]
  | cons p rest ih =>
    intro acc
    cases hpd : p.distance with
    | none =>
      have hfil : inWindowCandidates window rDist (p :: rest) =
          inWindowCandidates window rDist rest := by
        simp [inWindowCandidates, List.filter_cons, hpd]
      rw [hfil, gradeScan]
      simp only [hpd]
      exact ih acc
    | some pd =>
      cases hpa : p.altitude with
      | none =>
        have hfil : inWindowCandidates window rDist (p :: rest) =
            inWindowCandidates window rDist rest := by
          simp [inWindowCandidates, List.filter_cons, hpd, hpa]
        rw [hfil, gradeScan]
        simp only [hpd, hpa]
        exact ih acc
      | some pa =>
        by_cases hw : pd - rDist > window
        · have hfil : inWindowCandidates window rDist (p :: rest) = [] := by
            simp [inWindowCandidates, List.filter_cons, hpd, hpa, List.takeWhile_cons]
            linarith
          rw [hfil, gradeScan]
          simp only [hpd, hpa]
          rw [if_pos hw]
          simp
        · have hfil : inWindowCandidates window rDist (p :: rest) =
              p :: inWindowCandidates window rDist rest := by
            simp [inWindowCandidates, List.filter_cons, hpd, hpa, List.takeWhile_cons]
            linarith
          rw [hfil, gradeScan]
          simp only [hpd, hpa]
          rw [if_neg hw, ih]
          cases hlast : (inWindowCandidates window rDist rest).getLast? with
          | none =>
            rw [List.getLast?_eq_none_iff] at hlast
            rw [hlast]
            simp [hpd, hpa]
          | some q =>
            obtain ⟨x, xs, hxe⟩ : ∃ x xs, inWindowCandidates window rDist rest = x :: xs := by
              cases hli : inWindowCandidates window rDist rest with
              | nil => rw [hli] at hlast; exact Option.noConfusion hlast
              | cons x xs => exact ⟨x, xs, rfl⟩
            rw [hxe] at hlast
            rw [hxe, List.getLast?_cons_cons, hlast]

/-- Claim C4: for every record with present distance and altitude,
`CalculateGrade` takes rise and run from the LAST forward candidate whose
gap stays within the grade window (every in-window candidate overwrites
the previous one); the scan stops at the first candidate beyond the
window, discarding it; and no grade is assigned when the final rise or
run is exactly zero, otherwise `Grade = rise / run * 100`. -/
theorem c4_grade_last_in_window (window : ℚ) (rs : List Record) (i : Nat) (r : Record)
    (rd ra : ℚ) (hr : rs[i]? = some r) (hd : r.distance = some rd)
    (ha : r.altitude = some ra) :
    (calculateGrade window rs)[i]? = some (
      match (inWindowCandidates window rd (rs.drop (i + 1))).getLast? with
      | none => r
      | some p =>
        if p.altitude.getD 0 - ra = 0 ∨ p.distance.getD 0 - rd = 0 then r
        else { r with
          grade := some ((p.altitude.getD 0 - ra) / (p.distance.getD 0 - rd) * 100) }) := by
  rw [calculateGrade, enumMap_getElem, hr]
  simp only [Option.map_some']
  simp only [hd, ha]
  rw [gradeScan_eq_last]
  cases (inWindowCandidates window rd (rs.drop (i + 1))).getLast? with
  | none => simp
  | some p => simp

/-- First record of the grade ramp: distance 0, altitude 0. -/
def gw0 : Record := { timestamp := 1, distance := some 0, altitude := some 0 }

/-- Second record of the grade ramp: distance 10, altitude 1. -/
def gw1 : Record := { timestamp := 2, distance := some 10, altitude := some 1 }

/-- Third record of the grade ramp: distance 20, altitude 2. -/
def gw2 : Record := { timestamp := 3, distance := some 20, altitude := some 2 }

/-- Witness for C4: on a linear ramp, the first record's grade comes from
the farthest in-window candidate, (2-0)/(20-0)·100 = 10 percent. -/
theorem c4_witness :
    (calculateGrade 100 [gw0, gw1, gw2])[0]? = some { gw0 with grade := some 10 } := by
  rw [c4_grade_last_in_window 100 [gw0, gw1, gw2] 0 gw0 0 0 (by decide) rfl rfl]
  norm_num [inWindowCandidates, List.filter_cons, List.takeWhile_cons,
    gw0, gw1, gw2, Record.mk.injEq]

/-- The counter accumulated by the smoothing scan is never negative. -/
theorem smoothScan_counter_nonneg (window : ℚ) (rs : List Record) (rDist : ℚ) :
    ∀ j, 0 ≤ (smoothScan window rs rDist j).2 := by
  intro j
  induction j with
  | zero =>
    rw [smoothScan]
    split
    · split
      · split_ifs <;> norm_num
      · norm_num
    · norm_num
  | succ j ih =>
    rw [smoothScan]
    split
    · split
      · split_ifs
        · norm_num
        · exact add_nonneg ih (by norm_num)
      · exact ih
    · norm_num

/-- `New` always produces a strictly positive smoothing window: the
default is 30 and the setter ignores non-positive values. -/
theorem new_smoothing_pos (opts : List PreOption) :
    0 < (new opts).smoothingElevDistance := by
  have key : ∀ o : Options, 0 < o.smoothingElevDistance →
      0 < (opts.foldl applyOption o).smoothingElevDistance := by
    induction opts with
    | nil => intro o h; simpa using h
    | cons a as ih =>
      intro o h
      rw [List.foldl_cons]
      apply ih
      cases a with
      | withSmoothingElevationDistance d =>
        rw [applyOption]
        split_ifs with hd
        · simpa using hd
        · exact h
      | withCalculateDistance d =>
        rw [applyOption]
        split_ifs <;> simpa using h
  exact key defaultOptions (by norm_num [defaultOptions])

/-- Claim C7: with options built by `New` the smoothing window is always
strictly positive, so for every record whose distance and altitude are
present the backward scan counts the record itself (gap 0 is never beyond
the window) and the divisor `counter` of `SmoothingElev` is at least 1 —
the division `sum / counter` never has a zero denominator. -/
theorem c7_smoothing_counter_positive (opts : List PreOption) (rs : List Record) (i : Nat)
    (r : Record) (rd a : ℚ) (hr : rs[i]? = some r)
    (hd : r.distance = some rd) (ha : r.altitude = some a) :
    0 < (new opts).smoothingElevDistance ∧
    1 ≤ (smoothScan (new opts).smoothingElevDistance rs rd i).2 := by
  refine ⟨new_smoothing_pos opts, ?_⟩
  have hwin := new_smoothing_pos opts
  cases i with
  | zero =>
    rw [smoothScan]
    simp only [hr, hd, ha]
    rw [if_neg (by simp only [sub_self]; linarith)]
  | succ j =>
    rw [smoothScan]
    simp only [hr, hd, ha]
    rw [if_neg (by simp only [sub_self]; linarith)]
    have := smoothScan_counter_nonneg (new opts).smoothingElevDistance rs rd j
    dsimp only
    linarith

/-- Witness for C7: a single record with both fields present is counted
at least once under the default options. -/
theorem c7_witness :
    0 < (new []).smoothingElevDistance ∧
    1 ≤ (smoothScan (new []).smoothingElevDistance [gw0] 0 0).2 :=
  c7_smoothing_counter_positive [] [gw0] 0 gw0 0 0 (by decide) rfl rfl

/-- First elevation record: distance 0, altitude 0. -/
def elev0 : Record := { timestamp := 1, distance := some 0, altitude := some 0 }

/-- Second elevation record: distance 10, altitude 60. -/
def elev1 : Record := { timestamp := 2, distance := some 10, altitude := some 60 }

/-- Third elevation record: distance 20, altitude 0. -/
def elev2 : Record := { timestamp := 3, distance := some 20, altitude := some 0 }

/-- Claim C9: `SmoothingElev` smooths progressively over the live array.
With window 30 and records (distance, altitude) = (0,0), (10,60), (20,0),
the third record averages the ALREADY-SMOOTHED altitude 30 of the second,
yielding (0+30+0)/3 = 10; the snapshot semantics would average the
original 60, yielding (0+60+0)/3 = 20 — so the code's output differs from
the snapshot variant and matches the progressive values. -/
theorem c9_progressive_smoothing :
    smoothingElev 30 [elev0, elev1, elev2] =
      [elev0, { elev1 with altitude := some 30 }, { elev2 with altitude := some 10 }] ∧
    smoothingElevSnapshot 30 [elev0, elev1, elev2] =
      [elev0, { elev1 with altitude := some 30 }, { elev2 with altitude := some 20 }] ∧
    smoothingElev 30 [elev0, elev1, elev2] ≠
      smoothingElevSnapshot 30 [elev0, elev1, elev2] := by
  refine ⟨?_, ?_, ?_⟩
  · norm_num [smoothingElev, smoothingElevAux, smoothScan, List.set,
      elev0, elev1, elev2, Record.mk.injEq]
  · norm_num [smoothingElevSnapshot, smoothScan, List.enum, List.enumFrom,
      elev0, elev1, elev2, Record.mk.injEq]
  · intro heq
    have h2 : ([elev0, { elev1 with altitude := some 30 },
        { elev2 with altitude := some 10 }] : List Record) =
        [elev0, { elev1 with altitude := some 30 }, { elev2 with altitude := some 20 }] := by
      calc ([elev0, { elev1 with altitude := some 30 }, { elev2 with altitude := some 10 }] : List Record)
          = smoothingElev 30 [elev0, elev1, elev2] := by
            norm_num [smoothingElev, smoothingElevAux, smoothScan, List.set,
              elev0, elev1, elev2, Record.mk.injEq]
        _ = smoothingElevSnapshot 30 [elev0, elev1, elev2] := heq
        _ = [elev0, { elev1 with altitude := some 30 }, { elev2 with altitude := some 20 }] := by
            norm_num [smoothingElevSnapshot, smoothScan, List.enum, List.enumFrom,
              elev0, elev1, elev2, Record.mk.injEq]
    simp [elev2, Record.mk.injEq] at h2

/-- A nonempty digit string whose value reaches `2 ^ bitSize` makes
`strconv.ParseUint` fail with a range error. -/
theorem parseUint_none_of_ge (s : String) (bitSize : Nat)
    (hne : s.data ≠ []) (hdig : s.data.all Char.isDigit = true)
    (hge : 2 ^ bitSize ≤ digitsVal s) : parseUint s bitSize = none := by
  rw [parseUint, if_pos ⟨hne, hdig⟩, if_neg (by omega)]

/-- Claim C10: when `Device.UnmarshalXML` (or `Version.UnmarshalXML`)
meets numeric character data beyond the target integer width — `uint32`
for UnitId, `uint16` for ProductID and the four Version fields — it
aborts at once, whatever tokens follow, and returns the parse error to
the caller with no decoded value; an error inside a nested `Version`
likewise aborts the enclosing `Device` decode. -/
theorem c10_out_of_range_aborts (d : Device) (ver : Version) (seName : String)
    (s : String) (rest : List XmlToken)
    (hne : s.data ≠ []) (hdig : s.data.all Char.isDigit = true) :
    (2 ^ 32 ≤ digitsVal s →
      deviceLoop d seName "UnitId" (.charData s :: rest) = .error (.parseFail s)) ∧
    (2 ^ 16 ≤ digitsVal s →
      deviceLoop d seName "ProductID" (.charData s :: rest) = .error (.parseFail s) ∧
      versionLoop ver seName "VersionMajor" (.charData s :: rest) = .error (.parseFail s) ∧
      versionLoop ver seName "VersionMinor" (.charData s :: rest) = .error (.parseFail s) ∧
      versionLoop ver seName "BuildMajor" (.charData s :: rest) = .error (.parseFail s) ∧
      versionLoop ver seName "BuildMinor" (.charData s :: rest) = .error (.parseFail s)) ∧
    (∀ target e, versionLoop {} "Version" "" rest = .error e →
      deviceLoop d seName target (.start "Version" :: rest) = .error e) := by
  refine ⟨?_, ?_, ?_⟩
  · intro h32
    rw [deviceLoop.eq_def]
    simp only []
    rw [parseUint_none_of_ge s 32 hne hdig h32]
  · intro h16
    have hp := parseUint_none_of_ge s 16 hne hdig h16
    refine ⟨?_, ?_, ?_, ?_, ?_⟩
    · rw [deviceLoop.eq_def]
      simp only []
      rw [hp]
    · rw [versionLoop.eq_def]
      simp only []
      rw [hp]
    · rw [versionLoop.eq_def]
      simp only []
      rw [hp]
    · rw [versionLoop.eq_def]
      simp only []
      rw [hp]
    · rw [versionLoop.eq_def]
      simp only []
      rw [hp]
  · intro target e hv
    rw [deviceLoop.eq_def]
    simp only [if_true]
    split
    · rename_i e1 heq
      rw [hv] at heq
      rw [Except.error.injEq] at heq
      rw [heq]
    · rename_i ver1 rest1 heq
      rw [hv] at heq
      exact Except.noConfusion heq

/-- Witness for C10: `4294967296 = 2^32` overflows UnitId's `uint32` and
`65536 = 2^16` overflows the `uint16` fields; each decode aborts with the
parse error. -/
theorem c10_witness :
    deviceLoop {} "Device" "UnitId" [.charData "4294967296"] =
      .error (.parseFail "4294967296") ∧
    deviceLoop {} "Device" "ProductID" [.charData "65536"] =
      .error (.parseFail "65536") ∧
    versionLoop {} "Version" "VersionMajor" [.charData "65536"] =
      .error (.parseFail "65536") := by
  refine ⟨?_, ?_, ?_⟩
  · exact (c10_out_of_range_aborts {} {} "Device" "4294967296" []
      (by decide) (by decide)).1 (by decide)
  · exact ((c10_out_of_range_aborts {} {} "Device" "65536" []
      (by decide) (by decide)).2.1 (by decide)).1
  · exact ((c10_out_of_range_aborts {} {} "Version" "65536" []
      (by decide) (by decide)).2.1 (by decide)).2.1

end Openivity
